import Mathlib

/-!
Verification of the face-checkpoint store of `sd-webui-faceswaplab`
(`scripts/faceswaplab_utils/face_checkpoints_utils.py`).

The Python module is thin filesystem glue: name sanitization, path
resolution, two-format (safetensors / legacy pickle) save and load of a
face descriptor, collision-avoiding save paths, and directory listing.
We embed it shallowly:

* a tensor value is carried opaquely as a list of integers (the store
  never inspects values, it only moves them between the descriptor
  mapping and the file);
* a face descriptor (`insightface` `Face`, a duck-typed mapping) is an
  association list from string keys to values;
* the filesystem is an association list from path strings to file data;
  writing a path replaces any previous entry for it;
* functions that can raise return an `Option` or an explicit result
  type with an error constructor; `None` results of the Python code
  become `Option.none`.

Paths are plain strings built with the POSIX separator, mirroring
`os.path.join` / `os.path.sep` on the platform the module targets.
-/

/-- Tensor payloads (embedding vector, age scalar, gender scalar) are
moved verbatim between descriptor and file; we carry them opaquely. -/
abbrev Value := List Int

/-- A face descriptor: a mapping from field names to tensor values,
as produced by the face-analysis collaborator. -/
abbrev Face := List (String × Value)

/-- Contents of a current-format (safetensors) file: named tensors. -/
abbrev FileContent := List (String × Value)

/-- Data stored at a path: a safetensors tensor mapping, a legacy
pickle blob holding a descriptor, or an image (preview png). -/
inductive FileData where
  | st (content : FileContent)
  | pkl (face : Face)
  | png
deriving DecidableEq

/-- The filesystem: paths with their data, newest entry first. -/
abbrev FS := List (String × FileData)

/-- Path existence, as probed by `os.path.exists`. -/
def fsExists (fs : FS) (p : String) : Bool :=
  (fs.lookup p).isSome

/-- Writing a file: replaces any previous data at the same path. -/
def fsWrite (fs : FS) (p : String) (d : FileData) : FS :=
  (p, d) :: fs.filter (fun e => !(e.1 == p))

/-- POSIX `os.path.join` for a relative second component. -/
def joinPath (a b : String) : String := a ++ "/" ++ b

/-- Python `os.path.sep in name`: the separator occurs in the string. -/
def containsSep (s : String) : Bool := s.data.contains '/'

/-- Python `str.endswith`, on the character lists of the strings. -/
def endsWithStr (s suffix : String) : Bool := suffix.data.isSuffixOf s.data

/-- The current checkpoint extension. -/
def currentExt : String := ".safetensors"

/-- The legacy (deprecated pickle) checkpoint extension. -/
def legacyExt : String := ".pkl"

/-- Characters kept by `sanitize_name`: the regex class `[A-Za-z0-9_. ]`. -/
def allowedChar (c : Char) : Bool :=
  ('A' ≤ c && c ≤ 'Z') || ('a' ≤ c && c ≤ 'z') || ('0' ≤ c && c ≤ '9') ||
    c == '_' || c == '.' || c == ' '

/-- The space-to-underscore replacement of `sanitize_name`. -/
def spaceToUnderscore (c : Char) : Char := if c = ' ' then '_' else c

/-- `sanitize_name`: drop characters outside `[A-Za-z0-9_. ]`, replace
spaces with underscores, truncate to 255 characters. -/
def sanitize_name (name : String) : String :=
  ⟨(((name.data.filter allowedChar).map spaceToUnderscore).take 255)⟩

/-- `get_checkpoint_path`: the managed directory
`<basedir>/models/faceswaplab/faces` (directory creation is not
modelled; only the path matters to the store). -/
def get_checkpoint_path (basedir : String) : String :=
  joinPath (joinPath (joinPath basedir "models") "faceswaplab") "faces"

/-- `matching_checkpoint`: resolve a checkpoint name to a path. A name
holding a path separator is returned verbatim; a name already carrying
a recognized extension is joined to the managed directory; otherwise
the managed directory is probed for `name + ".safetensors"` then
`name + ".pkl"`, returning the first existing path, else `none`. -/
def matching_checkpoint (basedir : String) (fs : FS) (name : String) :
    Option String :=
  if containsSep name then some name
  else if !(endsWithStr name currentExt || endsWithStr name legacyExt) then
    if fsExists fs (joinPath (get_checkpoint_path basedir) (name ++ currentExt)) then
      some (joinPath (get_checkpoint_path basedir) (name ++ currentExt))
    else if fsExists fs (joinPath (get_checkpoint_path basedir) (name ++ legacyExt)) then
      some (joinPath (get_checkpoint_path basedir) (name ++ legacyExt))
    else none
  else some (joinPath (get_checkpoint_path basedir) name)

/-- Modelled from the spec: `resolvePath(name)` as section 4.1 words it,
with the probe phrased as "the first existing among the candidate
paths". Compared against `matching_checkpoint` for claim C2. -/
def firstExisting (fs : FS) : List String → Option String
  | [] => none
  | p :: rest => if fsExists fs p then some p else firstExisting fs rest

/-- Modelled from the spec: the `resolvePath` operation of the
Checkpoint Store, following the wording of spec section 4.1. -/
def resolvePath_spec (basedir : String) (fs : FS) (name : String) :
    Option String :=
  if containsSep name then some name
  else if endsWithStr name currentExt || endsWithStr name legacyExt then
    some (joinPath (get_checkpoint_path basedir) name)
  else
    firstExisting fs
      [joinPath (get_checkpoint_path basedir) (name ++ currentExt),
       joinPath (get_checkpoint_path basedir) (name ++ legacyExt)]

/-- The tensor mapping `save_face` writes: exactly the `embedding`,
`gender`, `age` entries of the descriptor, in that order. `none` when
a key is missing (the Python `KeyError` escapes `save_face`). -/
def save_face_content (face : Face) : Option FileContent :=
  match face.lookup "embedding", face.lookup "gender", face.lookup "age" with
  | some e, some g, some a => some [("embedding", e), ("gender", g), ("age", a)]
  | _, _, _ => none

/-- `save_face`: write the three-entry tensor mapping of the descriptor
to `filename` in current format; `none` when the write raises. -/
def save_face (fs : FS) (face : Face) (filename : String) : Option FS :=
  (save_face_content face).map fun c => fsWrite fs filename (FileData.st c)

/-- Errors `load_face` can raise: a read or deserialization failure,
or the `NotImplementedError` for an unrecognized extension. -/
inductive LoadErr where
  | ioError
  | unsupported
deriving DecidableEq

/-- Result of `load_face`: the returned descriptor (or Python `None`)
together with the filesystem after any migration side effect, or a
raised error. -/
inductive LoadResult where
  | ok (face : Option Face) (fs : FS)
  | err (e : LoadErr)
deriving DecidableEq

/-- Python `filename.replace(".pkl", ".safetensors")` on character
lists: every occurrence of `.pkl` is rewritten. -/
def replacePklChars : List Char → List Char
  | '.' :: 'p' :: 'k' :: 'l' :: rest => ".safetensors".data ++ replacePklChars rest
  | c :: rest => c :: replacePklChars rest
  | [] => []

/-- Python `filename.replace(".pkl", ".safetensors")`. -/
def replacePkl (s : String) : String := ⟨replacePklChars s.data⟩

/-- `load_face`: resolve the name; absent resolution is Python `None`.
A legacy `.pkl` path is deserialized and immediately re-saved in
current format (all `.pkl` occurrences of the path rewritten to
`.safetensors`), returning the full legacy descriptor. A
`.safetensors` path is read into a descriptor holding every entry of
the file. Any other extension raises `NotImplementedError`. -/
def load_face (basedir : String) (fs : FS) (name : String) : LoadResult :=
  match matching_checkpoint basedir fs name with
  | none => LoadResult.ok none fs
  | some filename =>
    if endsWithStr filename legacyExt then
      match fs.lookup filename with
      | some (FileData.pkl face) =>
        match save_face fs face (replacePkl filename) with
        | some fs2 => LoadResult.ok (some face) fs2
        | none => LoadResult.err LoadErr.ioError
      | some _ => LoadResult.err LoadErr.ioError
      | none => LoadResult.err LoadErr.ioError
    else if endsWithStr filename currentExt then
      match fs.lookup filename with
      | some (FileData.st content) => LoadResult.ok (some content) fs
      | some _ => LoadResult.err LoadErr.ioError
      | none => LoadResult.err LoadErr.ioError
    else LoadResult.err LoadErr.unsupported

/-- Decimal digit to its character, as Python `str` renders integers. -/
def digitChar (d : Nat) : Char :=
  if d = 0 then '0' else if d = 1 then '1' else if d = 2 then '2'
  else if d = 3 then '3' else if d = 4 then '4' else if d = 5 then '5'
  else if d = 6 then '6' else if d = 7 then '7' else if d = 8 then '8'
  else '9'

/-- Little-endian decimal digits of `n`, with explicit fuel so that the
definition is structural (fuel `n` always suffices). -/
def digitsRev : Nat → Nat → List Nat
  | 0, _ => []
  | fuel + 1, n => if n = 0 then [] else n % 10 :: digitsRev fuel (n / 10)

/-- Decimal rendering of a natural number, as a Python f-string
interpolates an `int`. -/
def natRepr (n : Nat) : String :=
  if n = 0 then "0" else ⟨((digitsRev n n).reverse.map digitChar)⟩

/-- The candidate save paths of `build_face_checkpoint_and_save`:
`<dir>/<name>.safetensors`, then `<dir>/<name>_k.safetensors`. -/
def candidate (basedir name : String) : Nat → String
  | 0 => joinPath (get_checkpoint_path basedir) (name ++ ".safetensors")
  | k + 1 =>
    joinPath (get_checkpoint_path basedir)
      (name ++ "_" ++ natRepr (k + 1) ++ ".safetensors")

/-- The `while os.path.exists(file_path)` probe of
`build_face_checkpoint_and_save`: `fp` is the path about to be tested,
`k` the next suffix number; the fuel bounds the iterations (the proofs
show `fs.length + 1` is never exhausted). -/
def probe_loop (basedir : String) (fs : FS) (name : String) :
    Nat → String → Nat → String
  | 0, fp, _ => fp
  | fuel + 1, fp, k =>
    if fsExists fs fp then
      probe_loop basedir fs name fuel (candidate basedir name k) (k + 1)
    else fp

/-- The save path chosen by `build_face_checkpoint_and_save`: with
`overwrite`, directly `<dir>/<name>.safetensors`; otherwise the probe
loop starting from that path with suffix number 1. -/
def build_checkpoint_path (basedir : String) (fs : FS) (name : String)
    (overwrite : Bool) : String :=
  let fp := candidate basedir name 0
  if overwrite then fp else probe_loop basedir fs name (fs.length + 1) fp 1

/-- Outcomes of the external collaborators of the build workflow, which
are out of scope of the store: the blended descriptor (or none when
blending finds no usable face) and the face detected on the reference
preview portrait (or none when detection fails there). The swap and
enhancement renders are abstracted as succeeding whenever the
reference face was found. -/
structure BuildEnv where
  blended : Option Face
  targetFace : Option Unit
deriving DecidableEq

/-- `build_face_checkpoint_and_save`, restricted to its store-visible
behaviour: the returned preview (abstracted to `Unit`) and the
filesystem effect. Control flow follows the Python source: sanitize
the name, give up with `None` when blending found nothing, substitute
`default_name` for an empty sanitized name, pick the save path by the
collision policy, write the checkpoint; when the reference face was
not detected the preview variable was never bound, so the subsequent
preview save raises and the boundary handler returns `None` — after
the checkpoint write. The reload sanity check does not alter the
filesystem and is omitted. -/
def build_face_checkpoint_and_save (basedir : String) (fs : FS)
    (env : BuildEnv) (name : String) (overwrite : Bool) :
    Option Unit × FS :=
  let name := sanitize_name name
  match env.blended with
  | none => (none, fs)
  | some face =>
    let name := if name = "" then "default_name" else name
    let file_path := build_checkpoint_path basedir fs name overwrite
    match save_face_content face with
    | none => (none, fs)
    | some content =>
      let fs := fsWrite fs file_path (FileData.st content)
      match env.targetFace with
      | none => (none, fs)
      | some _ => (some (), fsWrite fs (file_path ++ ".png") FileData.png)

/-- Python string comparison (used by `sorted`): lexicographic on code
points. -/
def charListLe : List Char → List Char → Bool
  | [], _ => true
  | _ :: _, [] => false
  | a :: as, b :: bs =>
    if a.toNat < b.toNat then true
    else if b.toNat < a.toNat then false
    else charListLe as bs

/-- Python `<=` on strings. -/
def strLe (a b : String) : Bool := charListLe a.data b.data

/-- The ordering relation of Python `sorted` on strings, as a `Prop`. -/
def strLeP (a b : String) : Prop := strLe a b = true

instance : DecidableRel strLeP := fun a b => instDecidableEqBool (strLe a b) true

/-- Whether a path is matched by `glob.glob` of `<dir>/*<ext>`: it lies
directly in `dir`, its basename does not start with a dot (glob skips
hidden files) and carries the extension. -/
def globMatch (dir ext : String) (p : String) : Bool :=
  (dir ++ "/").data.isPrefixOf p.data &&
    (let base := p.data.drop (dir.data.length + 1)
     !base.contains '/' &&
       (match base with | [] => false | c :: _ => !(c == '.')) &&
       ext.data.isSuffixOf base)

/-- `os.path.basename` on character lists: everything after the last
separator. -/
def basenameChars (l : List Char) : List Char :=
  (l.reverse.takeWhile (fun c => !(c == '/'))).reverse

/-- `os.path.basename`. -/
def basename (p : String) : String := ⟨basenameChars p.data⟩

/-- `get_face_checkpoints`: glob the managed directory for
`*.safetensors` then `*.pkl`, sort the merged full paths, take
basenames and prefix the literal sentinel `"None"`. -/
def get_face_checkpoints (basedir : String) (fs : FS) : List String :=
  let dir := get_checkpoint_path basedir
  let faces := (fs.map Prod.fst).filter (globMatch dir currentExt) ++
    (fs.map Prod.fst).filter (globMatch dir legacyExt)
  "None" :: (List.insertionSort strLeP faces).map basename

/-! ### Basic facts about the embedded string operations -/

theorem String.eq_of_data_eq {a b : String} (h : a.data = b.data) : a = b :=
  congrArg String.mk h

theorem containsSep_eq_false_iff {s : String} :
    containsSep s = false ↔ '/' ∉ s.data := by
  unfold containsSep
  rw [show s.data.contains '/' = s.data.elem '/' from rfl, Bool.eq_false_iff]
  exact not_congr List.elem_iff

theorem containsSep_mk_append {a b : List Char} :
    containsSep ⟨a ++ b⟩ = false ↔ containsSep ⟨a⟩ = false ∧ containsSep ⟨b⟩ = false := by
  simp only [containsSep_eq_false_iff]
  simp [List.mem_append, not_or]

theorem endsWithStr_append_left {s t ext : String}
    (h : endsWithStr t ext = true) : endsWithStr (s ++ t) ext = true := by
  unfold endsWithStr at *
  rw [List.isSuffixOf_iff_suffix] at *
  exact h.trans (by rw [String.data_append]; exact List.suffix_append _ _)

theorem not_endsWith_legacy_of_current {s : String}
    (h : endsWithStr s currentExt = true) : endsWithStr s legacyExt = false := by
  unfold endsWithStr at *
  rw [List.isSuffixOf_iff_suffix] at h
  by_contra hne
  have hleg : legacyExt.data <:+ s.data := by
    rw [← List.isSuffixOf_iff_suffix]
    cases hb : legacyExt.data.isSuffixOf s.data
    · exact absurd hb hne
    · rfl
  rcases List.suffix_or_suffix_of_suffix hleg h with h1 | h1
  · rcases h1 with ⟨t, ht⟩
    have hlen := congrArg List.length ht
    simp [legacyExt, currentExt] at hlen
    have h2 : currentExt.data.drop 8 = legacyExt.data := by
      rw [← ht, show (8 : Nat) = t.length from by omega, List.drop_left]
    exact absurd h2 (by decide)
  · rcases h1 with ⟨t, ht⟩
    have hlen := congrArg List.length ht
    simp [legacyExt, currentExt] at hlen

/-! ### Claim C3: sanitize_name is total and produces safe names -/

/-- The character class `[A-Za-z0-9_.]` the spec promises for sanitized
output. -/
def sanitizedChar (c : Char) : Bool :=
  ('A' ≤ c && c ≤ 'Z') || ('a' ≤ c && c ≤ 'z') || ('0' ≤ c && c ≤ '9') ||
    c == '_' || c == '.'

theorem allowedChar_eq (c : Char) :
    allowedChar c = (sanitizedChar c || c == ' ') := by
  unfold allowedChar sanitizedChar
  simp [Bool.or_assoc]

theorem count_map_spaceToUnderscore (l : List Char) :
    (l.map spaceToUnderscore).count '_' = l.count '_' + l.count ' ' := by
  induction l with
  | nil => rfl
  | cons c t ih =>
    by_cases hc : c = ' '
    · subst hc
      simp [spaceToUnderscore, List.count_cons, ih]
      omega
    · have h1 : spaceToUnderscore c = c := by simp [spaceToUnderscore, hc]
      have h2 : (c == ' ') = false := by simp [hc]
      simp [List.count_cons, h1, ih, h2]
      omega

/-- C3: `sanitize_name` is a total Lean function (hence deterministic
and pure); every character of its output lies in `[A-Za-z0-9_.]`, its
length is at most 255, and each space that survives the filter and the
truncation becomes an underscore (the underscore count of the output
is the underscore count plus the space count of the kept prefix). -/
theorem claim_C3 (name : String) :
    (sanitize_name name).data.all sanitizedChar = true ∧
    (sanitize_name name).data.length ≤ 255 ∧
    (sanitize_name name).data.count '_' =
      ((name.data.filter allowedChar).take 255).count '_' +
        ((name.data.filter allowedChar).take 255).count ' ' := by
  refine ⟨?_, ?_, ?_⟩
  · rw [List.all_eq_true]
    intro c hc
    unfold sanitize_name at hc
    have hc' := List.take_subset _ _ hc
    rcases List.mem_map.mp hc' with ⟨c0, hc0, rfl⟩
    have hall : allowedChar c0 = true := List.of_mem_filter hc0
    rw [allowedChar_eq] at hall
    by_cases hsp : c0 = ' '
    · subst hsp; decide
    · have hb : (c0 == ' ') = false := by simp [hsp]
      rw [hb, Bool.or_false] at hall
      simp [spaceToUnderscore, hsp]
      exact hall
  · unfold sanitize_name
    exact List.length_take_le 255 _
  · unfold sanitize_name
    rw [← List.map_take]
    exact count_map_spaceToUnderscore _

/-! ### Claim C2: matching_checkpoint matches the spec resolvePath -/

/-- C2: on every filesystem and for every name, `matching_checkpoint`
computes exactly the `resolvePath` operation the spec describes:
verbatim for names holding a separator, directory-joined for names
already carrying a recognized extension, and otherwise the first
existing of the current-extension then legacy-extension probes, absent
when neither exists. -/
theorem claim_C2 (basedir : String) (fs : FS) (name : String) :
    matching_checkpoint basedir fs name = resolvePath_spec basedir fs name := by
  unfold matching_checkpoint resolvePath_spec firstExisting
  by_cases h1 : containsSep name = true
  · simp [h1]
  · by_cases h2 : (endsWithStr name currentExt || endsWithStr name legacyExt) = true
    · simp [h1, h2]
    · by_cases h3 :
          fsExists fs (joinPath (get_checkpoint_path basedir) (name ++ currentExt)) = true
      · simp [h1, h2, h3]
      · by_cases h4 :
            fsExists fs (joinPath (get_checkpoint_path basedir) (name ++ legacyExt)) = true
        · simp [firstExisting, h1, h2, h3, h4]
        · simp [firstExisting, h1, h2, h3, h4]

/-! ### Claim C6: the error taxonomy of load_face -/

/-- C6: `load_face` returns the absent value without raising exactly
when the name resolves to no file, and raises the unsupported-format
error exactly when the name resolves to a path carrying neither the
current nor the legacy extension. -/
theorem claim_C6 (basedir : String) (fs : FS) (name : String) :
    (load_face basedir fs name = LoadResult.ok none fs ↔
      matching_checkpoint basedir fs name = none) ∧
    (load_face basedir fs name = LoadResult.err LoadErr.unsupported ↔
      ∃ p, matching_checkpoint basedir fs name = some p ∧
        endsWithStr p currentExt = false ∧ endsWithStr p legacyExt = false) := by
  unfold load_face
  cases hm : matching_checkpoint basedir fs name with
  | none => simp
  | some p =>
    by_cases hleg : endsWithStr p legacyExt = true
    · simp only [hleg, if_true]
      constructor
      · cases hl : fs.lookup p with
        | none => simp
        | some d =>
          cases d with
          | pkl face =>
            cases hs : save_face fs face (replacePkl p) with
            | none => simp [hs]
            | some fs2 => simp [hs]
          | st content => simp
          | png => simp
      · cases hl : fs.lookup p with
        | none => simp [hleg]
        | some d =>
          cases d with
          | pkl face =>
            cases hs : save_face fs face (replacePkl p) with
            | none => simp [hs, hleg]
            | some fs2 => simp [hs, hleg]
          | st content => simp [hleg]
          | png => simp [hleg]
    · by_cases hcur : endsWithStr p currentExt = true
      · simp only [hleg, hcur, if_false, if_true, Bool.false_eq_true]
        constructor
        · cases hl : fs.lookup p with
          | none => simp
          | some d => cases d <;> simp
        · cases hl : fs.lookup p with
          | none => simp [hcur]
          | some d => cases d <;> simp [hcur]
      · simp only [hleg, hcur, if_false, Bool.false_eq_true]
        constructor
        · simp
        · simp only [Bool.not_eq_true] at hleg hcur
          simp [hleg, hcur]

/-! ### Claim C1: save/load round trip keeps exactly the three fields -/

theorem lookup_fsWrite_self (fs : FS) (p : String) (d : FileData) :
    (fsWrite fs p d).lookup p = some d := by
  simp [fsWrite, List.lookup]

theorem lookup_filter_ne (fs : FS) (p q : String) (h : q ≠ p) :
    (fs.filter (fun e => !(e.1 == p))).lookup q = fs.lookup q := by
  induction fs with
  | nil => simp
  | cons e t ih =>
    by_cases hp : e.1 = p
    · have hq : (q == e.1) = false := by simp [hp, h]
      have hqp : (q == p) = false := by simp [h]
      simp [List.filter, hp, List.lookup, hq, hqp, ih]
    · have : (e.1 == p) = false := by simp [hp]
      simp only [List.filter_cons, this, Bool.not_false, if_true]
      cases hqe : (q == e.1) <;> simp [List.lookup, hqe, ih]

theorem lookup_fsWrite_ne (fs : FS) (p q : String) (d : FileData) (h : q ≠ p) :
    (fsWrite fs p d).lookup q = fs.lookup q := by
  have hq : (q == p) = false := by simp [h]
  simp [fsWrite, List.lookup, hq, lookup_filter_ne fs p q h]

/-- C1: a descriptor holding `embedding`, `gender`, `age` (and possibly
more), saved with `save_face` to a managed-directory path and loaded
back with `load_face`, yields a descriptor with exactly the three
persisted entries, each equal to the original value. -/
theorem claim_C1 (basedir : String) (fs : FS) (face : Face) (e g a : Value)
    (name : String)
    (he : face.lookup "embedding" = some e)
    (hg : face.lookup "gender" = some g)
    (ha : face.lookup "age" = some a)
    (hsep : containsSep name = false)
    (hext : endsWithStr name currentExt = true) :
    save_face fs face (joinPath (get_checkpoint_path basedir) name) =
      some (fsWrite fs (joinPath (get_checkpoint_path basedir) name)
        (FileData.st [("embedding", e), ("gender", g), ("age", a)])) ∧
    load_face basedir
        (fsWrite fs (joinPath (get_checkpoint_path basedir) name)
          (FileData.st [("embedding", e), ("gender", g), ("age", a)])) name =
      LoadResult.ok (some [("embedding", e), ("gender", g), ("age", a)])
        (fsWrite fs (joinPath (get_checkpoint_path basedir) name)
          (FileData.st [("embedding", e), ("gender", g), ("age", a)])) := by
  have hcontent : save_face_content face =
      some [("embedding", e), ("gender", g), ("age", a)] := by
    simp [save_face_content, he, hg, ha]
  refine ⟨by simp [save_face, hcontent], ?_⟩
  have hpcur : endsWithStr (joinPath (get_checkpoint_path basedir) name)
      currentExt = true := endsWithStr_append_left hext
  have hpleg : endsWithStr (joinPath (get_checkpoint_path basedir) name)
      legacyExt = false := not_endsWith_legacy_of_current hpcur
  have hm : matching_checkpoint basedir
      (fsWrite fs (joinPath (get_checkpoint_path basedir) name)
        (FileData.st [("embedding", e), ("gender", g), ("age", a)])) name =
      some (joinPath (get_checkpoint_path basedir) name) := by
    unfold matching_checkpoint
    simp [hsep, hext]
  unfold load_face
  rw [hm]
  simp [hpleg, hpcur, lookup_fsWrite_self]

/-- Witness for C1: a concrete descriptor with an extra field round
trips to exactly the three persisted fields. -/
theorem claim_C1_witness :
    load_face "base"
        (fsWrite [] (joinPath (get_checkpoint_path "base") "face0.safetensors")
          (FileData.st [("embedding", [1, 2]), ("gender", [1]), ("age", [30])]))
        "face0.safetensors" =
      LoadResult.ok (some [("embedding", [1, 2]), ("gender", [1]), ("age", [30])])
        (fsWrite [] (joinPath (get_checkpoint_path "base") "face0.safetensors")
          (FileData.st [("embedding", [1, 2]), ("gender", [1]), ("age", [30])])) :=
  (claim_C1 "base" []
    [("embedding", [1, 2]), ("age", [30]), ("gender", [1]), ("extra", [9])]
    [1, 2] [1] [30] "face0.safetensors"
    (by decide) (by decide) (by decide) (by decide) (by decide)).2

/-! ### Decimal rendering: digits, injectivity -/

theorem digitsRev_mem_lt (fuel n : Nat) :
    ∀ d ∈ digitsRev fuel n, d < 10 := by
  induction fuel generalizing n with
  | zero => simp [digitsRev]
  | succ f ih =>
    intro d hd
    unfold digitsRev at hd
    by_cases hn : n = 0
    · simp [hn] at hd
    · rw [if_neg hn] at hd
      rcases List.mem_cons.mp hd with h | h
      · subst h; exact Nat.mod_lt _ (by omega)
      · exact ih _ d h

/-- Value of a little-endian digit list. -/
def evalRevDigits (l : List Nat) : Nat := l.foldr (fun d acc => d + 10 * acc) 0

theorem evalRevDigits_digitsRev (fuel n : Nat) (h : n ≤ fuel) :
    evalRevDigits (digitsRev fuel n) = n := by
  induction fuel generalizing n with
  | zero =>
    have : n = 0 := by omega
    simp [this, digitsRev, evalRevDigits]
  | succ f ih =>
    unfold digitsRev
    by_cases hn : n = 0
    · simp [hn, evalRevDigits]
    · rw [if_neg hn]
      have hdiv : n / 10 ≤ f := by
        have := Nat.div_lt_self (Nat.pos_of_ne_zero hn) (by omega : 1 < 10)
        omega
      have := ih (n / 10) hdiv
      simp only [evalRevDigits, List.foldr_cons] at *
      rw [this]
      omega

theorem digitChar_inj :
    ∀ d1 < 10, ∀ d2 < 10, digitChar d1 = digitChar d2 → d1 = d2 := by decide

theorem digitChar_ne_sep : ∀ d < 10, digitChar d ≠ '/' := by decide

theorem map_digitChar_inj {l1 l2 : List Nat}
    (h1 : ∀ d ∈ l1, d < 10) (h2 : ∀ d ∈ l2, d < 10)
    (h : l1.map digitChar = l2.map digitChar) : l1 = l2 := by
  induction l1 generalizing l2 with
  | nil => cases l2 <;> simp_all
  | cons d t ih =>
    cases l2 with
    | nil => simp at h
    | cons d' t' =>
      simp only [List.map_cons, List.cons.injEq] at h
      have hd : d = d' :=
        digitChar_inj d (h1 d (by simp)) d' (h2 d' (by simp)) h.1
      have ht : t = t' := ih (fun x hx => h1 x (by simp [hx]))
        (fun x hx => h2 x (by simp [hx])) h.2
      simp [hd, ht]

theorem natRepr_inj : Function.Injective natRepr := by
  intro m n h
  unfold natRepr at h
  by_cases hm : m = 0 <;> by_cases hn : n = 0
  · omega
  · exfalso
    rw [if_pos hm, if_neg hn] at h
    have hdata : ['0'] = ((digitsRev n n).reverse.map digitChar) :=
      congrArg String.data h
    have : (digitsRev n n).reverse = [0] := by
      refine map_digitChar_inj ?_ ?_ ?_
      · intro d hd
        exact digitsRev_mem_lt n n d (List.mem_reverse.mp hd)
      · simp
      · exact hdata.symm.trans (by decide)
    have hval : digitsRev n n = [0] := by
      have := congrArg List.reverse this
      simpa using this
    have := evalRevDigits_digitsRev n n (le_refl n)
    rw [hval] at this
    simp [evalRevDigits] at this
    omega
  · exfalso
    rw [if_neg hm, if_pos hn] at h
    have hdata : ((digitsRev m m).reverse.map digitChar) = ['0'] :=
      congrArg String.data h
    have : (digitsRev m m).reverse = [0] := by
      refine map_digitChar_inj ?_ ?_ ?_
      · intro d hd
        exact digitsRev_mem_lt m m d (List.mem_reverse.mp hd)
      · simp
      · exact hdata.trans (by decide)
    have hval : digitsRev m m = [0] := by
      have := congrArg List.reverse this
      simpa using this
    have := evalRevDigits_digitsRev m m (le_refl m)
    rw [hval] at this
    simp [evalRevDigits] at this
    omega
  · rw [if_neg hm, if_neg hn] at h
    have hdata : ((digitsRev m m).reverse.map digitChar) =
        ((digitsRev n n).reverse.map digitChar) := congrArg String.data h
    have hrev : (digitsRev m m).reverse = (digitsRev n n).reverse := by
      refine map_digitChar_inj ?_ ?_ hdata
      · intro d hd
        exact digitsRev_mem_lt m m d (List.mem_reverse.mp hd)
      · intro d hd
        exact digitsRev_mem_lt n n d (List.mem_reverse.mp hd)
    have hlist : digitsRev m m = digitsRev n n := by
      have := congrArg List.reverse hrev
      simpa using this
    have e1 := evalRevDigits_digitsRev m m (le_refl m)
    have e2 := evalRevDigits_digitsRev n n (le_refl n)
    rw [hlist] at e1
    omega

theorem natRepr_sep_free (n : Nat) : containsSep (natRepr n) = false := by
  rw [containsSep_eq_false_iff]
  unfold natRepr
  by_cases hn : n = 0
  · simp [hn]
  · rw [if_neg hn]
    intro hmem
    rcases List.mem_map.mp hmem with ⟨d, hd, hdc⟩
    exact digitChar_ne_sep d
      (digitsRev_mem_lt n n d (List.mem_reverse.mp hd)) hdc

/-! ### The collision probe of build_face_checkpoint_and_save -/

theorem candidate_inj (bd name : String) :
    Function.Injective (candidate bd name) := by
  intro i j h
  rcases i with _ | i <;> rcases j with _ | j
  · rfl
  · exfalso
    unfold candidate joinPath at h
    have hd := congrArg String.data h
    simp only [String.data_append, List.append_assoc] at hd
    have h3 := List.append_cancel_left (List.append_cancel_left
      (List.append_cancel_left hd))
    have hlen := congrArg List.length h3
    simp [List.length_append] at hlen
  · exfalso
    unfold candidate joinPath at h
    have hd := congrArg String.data h
    simp only [String.data_append, List.append_assoc] at hd
    have h3 := List.append_cancel_left (List.append_cancel_left
      (List.append_cancel_left hd))
    have hlen := congrArg List.length h3
    simp [List.length_append] at hlen
  · unfold candidate joinPath at h
    have hd := congrArg String.data h
    simp only [String.data_append, List.append_assoc] at hd
    have h4 := List.append_cancel_left (List.append_cancel_left
      (List.append_cancel_left (List.append_cancel_left hd)))
    have h5 := List.append_cancel_right h4
    have := natRepr_inj (String.eq_of_data_eq h5)
    omega

theorem lookup_isSome_mem {fs : FS} {p : String}
    (h : (fs.lookup p).isSome = true) : p ∈ fs.map Prod.fst := by
  induction fs with
  | nil => simp [List.lookup] at h
  | cons e t ih =>
    by_cases he : (p == e.1) = true
    · simp [eq_of_beq he]
    · have hf : (p == e.1) = false := Bool.eq_false_iff.mpr he
      simp only [List.lookup, hf] at h
      simp [ih h]

theorem exists_free_candidate (bd : String) (fs : FS) (name : String) :
    ∃ k ≤ fs.length, fsExists fs (candidate bd name k) = false := by
  by_contra hall
  push_neg at hall
  have hsub : ((List.range (fs.length + 1)).map (candidate bd name)) ⊆
      fs.map Prod.fst := by
    intro p hp
    rcases List.mem_map.mp hp with ⟨k, hk, rfl⟩
    have hk' : k ≤ fs.length := by
      have := List.mem_range.mp hk
      omega
    have hex : fsExists fs (candidate bd name k) = true :=
      Bool.ne_false_iff.mp (hall k hk')
    exact lookup_isSome_mem hex
  have hnodup : ((List.range (fs.length + 1)).map (candidate bd name)).Nodup :=
    (List.nodup_range _).map (candidate_inj bd name)
  have hle := (hnodup.subperm hsub).length_le
  simp at hle

theorem probe_loop_spec (bd : String) (fs : FS) (name : String) (k0 : Nat)
    (hfree : fsExists fs (candidate bd name k0) = false)
    (hmin : ∀ j < k0, fsExists fs (candidate bd name j) = true) :
    ∀ fuel i, i ≤ k0 → k0 < i + fuel →
      probe_loop bd fs name fuel (candidate bd name i) (i + 1) =
        candidate bd name k0 := by
  intro fuel
  induction fuel with
  | zero => intro i h1 h2; exact absurd h2 (by omega)
  | succ f ih =>
    intro i h1 h2
    unfold probe_loop
    by_cases hex : fsExists fs (candidate bd name i) = true
    · rw [if_pos hex]
      have hik : i ≠ k0 := fun he => by rw [he] at hex; rw [hex] at hfree; cases hfree
      exact ih (i + 1) (by omega) (by omega)
    · rw [if_neg hex]
      have : i = k0 := by
        by_contra hne
        exact hex (hmin i (by omega))
      rw [this]

/-- The save path chosen without `overwrite` is the first candidate
that does not exist, and every earlier candidate exists. -/
theorem build_checkpoint_path_false_spec (bd : String) (fs : FS) (name : String) :
    ∃ k, build_checkpoint_path bd fs name false = candidate bd name k ∧
      fsExists fs (candidate bd name k) = false ∧
      ∀ j < k, fsExists fs (candidate bd name j) = true := by
  rcases exists_free_candidate bd fs name with ⟨kw, hkw, hkwfree⟩
  have hP : ∃ k, fsExists fs (candidate bd name k) = false := ⟨kw, hkwfree⟩
  refine ⟨Nat.find hP, ?_, Nat.find_spec hP, ?_⟩
  · unfold build_checkpoint_path
    rw [if_neg (by simp)]
    have hle : Nat.find hP ≤ fs.length := Nat.find_min' hP hkwfree |>.trans hkw
    exact probe_loop_spec bd fs name (Nat.find hP) (Nat.find_spec hP)
      (fun j hj => Bool.ne_false_iff.mp (Nat.find_min hP hj)) (fs.length + 1) 0
      (by omega) (by omega)
  · exact fun j hj => Bool.ne_false_iff.mp (Nat.find_min hP hj)

theorem ne_append_nonempty (s t : String) (h : t.data ≠ []) : s ≠ s ++ t := by
  intro he
  have hd := congrArg String.data he
  rw [String.data_append] at hd
  have hlen := congrArg List.length hd
  rw [List.length_append] at hlen
  have : t.data.length = 0 := by omega
  exact h (List.length_eq_zero.mp this)

/-- The example filesystem of the collision-policy claims:
`alpha.safetensors` and `alpha_1.safetensors` already exist. -/
def alphaFS : FS :=
  [(joinPath (get_checkpoint_path "base") "alpha.safetensors", FileData.st []),
   (joinPath (get_checkpoint_path "base") "alpha_1.safetensors", FileData.st [])]

/-- C4: without `overwrite`, the build workflow probes `name.safetensors`,
`name_1.safetensors`, `name_2.safetensors`, … and picks the first path
that does not exist (first conjunct); the checkpoint is then written at
that path (second conjunct); in particular with `alpha.safetensors` and
`alpha_1.safetensors` existing, name `alpha` selects
`alpha_2.safetensors` (third conjunct). -/
theorem claim_C4 :
    (∀ bd fs name, ∃ k,
        build_checkpoint_path bd fs name false = candidate bd name k ∧
        fsExists fs (candidate bd name k) = false ∧
        ∀ j < k, fsExists fs (candidate bd name j) = true) ∧
    (∀ bd fs env name f c, env.blended = some f → save_face_content f = some c →
        ((build_face_checkpoint_and_save bd fs env name false).2).lookup
          (build_checkpoint_path bd fs
            (if sanitize_name name = "" then "default_name" else sanitize_name name)
            false) = some (FileData.st c)) ∧
    build_checkpoint_path "base" alphaFS "alpha" false =
      joinPath (get_checkpoint_path "base") "alpha_2.safetensors" := by
  refine ⟨build_checkpoint_path_false_spec, ?_, by decide⟩
  intro bd fs env name f c hb hc
  unfold build_face_checkpoint_and_save
  simp only [hb, hc]
  cases ht : env.targetFace with
  | none => simp [lookup_fsWrite_self]
  | some u =>
    simp only []
    rw [lookup_fsWrite_ne _ _ _ _ (ne_append_nonempty _ ".png" (by decide))]
    exact lookup_fsWrite_self _ _ _

/-- Witness for C4: a concrete build without `overwrite` writes the
three-field checkpoint at the path the collision policy picks. -/
theorem claim_C4_witness :
    ((build_face_checkpoint_and_save "base" []
        { blended := some [("embedding", [1]), ("gender", [0]), ("age", [25])],
          targetFace := some () } "alpha" false).2).lookup
      (build_checkpoint_path "base" []
        (if sanitize_name "alpha" = "" then "default_name" else sanitize_name "alpha")
        false) =
      some (FileData.st [("embedding", [1]), ("gender", [0]), ("age", [25])]) :=
  claim_C4.2.1 "base" []
    { blended := some [("embedding", [1]), ("gender", [0]), ("age", [25])],
      targetFace := some () } "alpha"
    [("embedding", [1]), ("gender", [0]), ("age", [25])]
    [("embedding", [1]), ("gender", [0]), ("age", [25])] rfl (by decide)

/-- Counterexample to C9 as stated: the claim attaches the numeric
suffix to the overwrite case, but with `overwrite` requested and
`alpha.safetensors` existing, the chosen path is exactly the occupied
`alpha.safetensors` — no suffix is appended and no free name sought. -/
theorem claim_C9_counterexample :
    build_checkpoint_path "base" alphaFS "alpha" true =
      joinPath (get_checkpoint_path "base") "alpha.safetensors" ∧
    fsExists alphaFS (build_checkpoint_path "base" alphaFS "alpha" true) = true := by
  constructor
  · rfl
  · decide

/-- C9 amended: with `overwrite` the sanitized stem alone determines
the file (always `<stem>.safetensors`); without `overwrite` a numeric
suffix `_1`, `_2`, … is appended until a free name is found. -/
theorem claim_C9_amended (bd : String) (fs : FS) (name : String) :
    build_checkpoint_path bd fs name true = candidate bd name 0 ∧
    ∃ k, build_checkpoint_path bd fs name false = candidate bd name k ∧
      fsExists fs (candidate bd name k) = false ∧
      ∀ j < k, fsExists fs (candidate bd name j) = true :=
  ⟨rfl, build_checkpoint_path_false_spec bd fs name⟩

/-- Witness for the amended C9 at a concrete store. -/
theorem claim_C9_amended_witness :
    build_checkpoint_path "base" alphaFS "alpha" true =
      candidate "base" "alpha" 0 :=
  (claim_C9_amended "base" alphaFS "alpha").1

/-! ### Claim C10: sanitized names never escape the managed directory -/

theorem containsSep_append_false {s t : String} (hs : containsSep s = false)
    (ht : containsSep t = false) : containsSep (s ++ t) = false := by
  rw [containsSep_eq_false_iff] at *
  rw [String.data_append]
  intro h
  rcases List.mem_append.mp h with h | h
  · exact hs h
  · exact ht h

theorem sanitize_sep_free (name : String) :
    containsSep (sanitize_name name) = false := by
  rw [containsSep_eq_false_iff]
  intro hmem
  unfold sanitize_name at hmem
  have hmem' := List.take_subset _ _ hmem
  rcases List.mem_map.mp hmem' with ⟨c0, hc0, hEq⟩
  have hall : allowedChar c0 = true := List.of_mem_filter hc0
  by_cases hsp : c0 = ' '
  · subst hsp
    simp [spaceToUnderscore] at hEq
  · rw [show spaceToUnderscore c0 = c0 from by simp [spaceToUnderscore, hsp]] at hEq
    rw [hEq] at hall
    exact absurd hall (by decide)

theorem candidate_eq_join (bd name : String) (k : Nat)
    (h : containsSep name = false) :
    ∃ base, candidate bd name k = joinPath (get_checkpoint_path bd) base ∧
      containsSep base = false := by
  cases k with
  | zero =>
    exact ⟨name ++ ".safetensors", rfl, containsSep_append_false h (by decide)⟩
  | succ k =>
    refine ⟨name ++ "_" ++ natRepr (k + 1) ++ ".safetensors", rfl, ?_⟩
    exact containsSep_append_false (containsSep_append_false
      (containsSep_append_false h (by decide)) (natRepr_sep_free _)) (by decide)

theorem joinPath_append (d b t : String) :
    joinPath d b ++ t = joinPath d (b ++ t) :=
  String.eq_of_data_eq (by
    simp [joinPath, String.data_append, List.append_assoc])

theorem fsExists_fsWrite_iff (fs : FS) (q p : String) (d : FileData) :
    fsExists (fsWrite fs q d) p = true ↔ p = q ∨ fsExists fs p = true := by
  by_cases h : p = q
  · subst h
    simp [fsExists, lookup_fsWrite_self]
  · rw [fsExists, lookup_fsWrite_ne fs q p d h]
    simp [fsExists, h]

theorem build_checkpoint_path_shape (bd : String) (fs : FS) (name : String)
    (ov : Bool) :
    ∃ k, build_checkpoint_path bd fs name ov = candidate bd name k := by
  cases ov with
  | true => exact ⟨0, rfl⟩
  | false =>
    rcases build_checkpoint_path_false_spec bd fs name with ⟨k, hk, -, -⟩
    exact ⟨k, hk⟩

/-- C10: sanitized names hold no path separator, so resolution of a
sanitized name never takes the caller-trusted verbatim branch (the
result is absent or a managed-directory path), and every file the
build workflow creates lies inside the managed checkpoint directory. -/
theorem claim_C10 :
    (∀ name, containsSep (sanitize_name name) = false) ∧
    (∀ bd fs name, matching_checkpoint bd fs (sanitize_name name) = none ∨
      ∃ base, matching_checkpoint bd fs (sanitize_name name) =
        some (joinPath (get_checkpoint_path bd) base)) ∧
    (∀ bd fs env name ov p,
      fsExists (build_face_checkpoint_and_save bd fs env name ov).2 p = true →
      fsExists fs p = true ∨
        ∃ base, p = joinPath (get_checkpoint_path bd) base ∧
          containsSep base = false) := by
  refine ⟨sanitize_sep_free, ?_, ?_⟩
  · intro bd fs name
    unfold matching_checkpoint
    rw [if_neg (by simp [sanitize_sep_free name])]
    by_cases h2 : (endsWithStr (sanitize_name name) currentExt ||
        endsWithStr (sanitize_name name) legacyExt) = true
    · rw [if_neg (by simp [h2])]
      exact Or.inr ⟨sanitize_name name, rfl⟩
    · rw [if_pos (by simp [h2])]
      by_cases h3 : fsExists fs (joinPath (get_checkpoint_path bd)
          (sanitize_name name ++ currentExt)) = true
      · rw [if_pos h3]
        exact Or.inr ⟨sanitize_name name ++ currentExt, rfl⟩
      · rw [if_neg h3]
        by_cases h4 : fsExists fs (joinPath (get_checkpoint_path bd)
            (sanitize_name name ++ legacyExt)) = true
        · rw [if_pos h4]
          exact Or.inr ⟨sanitize_name name ++ legacyExt, rfl⟩
        · rw [if_neg h4]
          exact Or.inl rfl
  · intro bd fs env name ov p hex
    unfold build_face_checkpoint_and_save at hex
    cases hb : env.blended with
    | none =>
      rw [hb] at hex
      exact Or.inl hex
    | some f =>
      rw [hb] at hex
      simp only [] at hex
      cases hc : save_face_content f with
      | none =>
        rw [hc] at hex
        exact Or.inl hex
      | some c =>
        rw [hc] at hex
        have hnsep : containsSep
            (if sanitize_name name = "" then "default_name"
             else sanitize_name name) = false := by
          split
          · decide
          · exact sanitize_sep_free name
        obtain ⟨k, hk⟩ := build_checkpoint_path_shape bd fs
          (if sanitize_name name = "" then "default_name"
           else sanitize_name name) ov
        obtain ⟨base, hbase, hbsep⟩ := candidate_eq_join bd _ k hnsep
        cases ht : env.targetFace with
        | none =>
          rw [ht] at hex
          rcases (fsExists_fsWrite_iff _ _ _ _).mp hex with h | h
          · exact Or.inr ⟨base, by rw [h, hk, hbase], hbsep⟩
          · exact Or.inl h
        | some u =>
          rw [ht] at hex
          rcases (fsExists_fsWrite_iff _ _ _ _).mp hex with h | h
          · refine Or.inr ⟨base ++ ".png", ?_, ?_⟩
            · rw [h, hk, hbase, joinPath_append]
            · exact containsSep_append_false hbsep (by decide)
          · rcases (fsExists_fsWrite_iff _ _ _ _).mp h with h2 | h2
            · exact Or.inr ⟨base, by rw [h2, hk, hbase], hbsep⟩
            · exact Or.inl h2

/-- Witness for C10 at a concrete build: the created checkpoint path is
a managed-directory path with a separator-free basename. -/
theorem claim_C10_witness :
    fsExists ([] : FS) (joinPath (get_checkpoint_path "base")
      "alpha.safetensors") = true ∨
    ∃ base, joinPath (get_checkpoint_path "base") "alpha.safetensors" =
      joinPath (get_checkpoint_path "base") base ∧ containsSep base = false :=
  claim_C10.2.2 "base" []
    { blended := some [("embedding", [1]), ("gender", [0]), ("age", [25])],
      targetFace := some () } "alpha" false
    (joinPath (get_checkpoint_path "base") "alpha.safetensors") (by decide)

/-! ### Claim C5: legacy load migrates, but extra fields do not persist -/

/-- A legacy descriptor carrying, besides the three persisted fields,
an extra field. -/
def faceX : Face :=
  [("embedding", [1, 2]), ("age", [30]), ("gender", [1]), ("extra", [9])]

/-- A store holding a single legacy checkpoint whose blob is `faceX`. -/
def legacyFS : FS :=
  [(joinPath (get_checkpoint_path "base") "f.pkl", FileData.pkl faceX)]

/-- Counterexample to C5 as stated: loading the legacy checkpoint `f`
returns the full blob `faceX` and writes the migrated current-format
file, but loading the migrated file afterwards yields only the three
persisted fields — a descriptor different from the returned one. -/
theorem claim_C5_counterexample :
    load_face "base" legacyFS "f" =
      LoadResult.ok (some faceX)
        (fsWrite legacyFS (joinPath (get_checkpoint_path "base") "f.safetensors")
          (FileData.st [("embedding", [1, 2]), ("gender", [1]), ("age", [30])])) ∧
    load_face "base"
        (fsWrite legacyFS (joinPath (get_checkpoint_path "base") "f.safetensors")
          (FileData.st [("embedding", [1, 2]), ("gender", [1]), ("age", [30])]))
        "f" =
      LoadResult.ok (some [("embedding", [1, 2]), ("gender", [1]), ("age", [30])])
        (fsWrite legacyFS (joinPath (get_checkpoint_path "base") "f.safetensors")
          (FileData.st [("embedding", [1, 2]), ("gender", [1]), ("age", [30])])) ∧
    faceX ≠ [("embedding", [1, 2]), ("gender", [1]), ("age", [30])] := by
  refine ⟨by decide, by decide, by decide⟩

/-- C5 amended: loading a legacy checkpoint persists a current-format
file at the path with `.pkl` rewritten to `.safetensors`, containing
exactly the three persisted fields with the blob's values, and returns
the full legacy blob; the returned descriptor therefore agrees with
the migrated file on `embedding`, `gender`, `age`, and equals it only
when the blob has no other fields. -/
theorem claim_C5_amended (bd : String) (fs : FS) (name p : String)
    (face : Face) (e g a : Value)
    (hm : matching_checkpoint bd fs name = some p)
    (hleg : endsWithStr p legacyExt = true)
    (hlook : fs.lookup p = some (FileData.pkl face))
    (he : face.lookup "embedding" = some e)
    (hg : face.lookup "gender" = some g)
    (ha : face.lookup "age" = some a) :
    load_face bd fs name =
      LoadResult.ok (some face)
        (fsWrite fs (replacePkl p)
          (FileData.st [("embedding", e), ("gender", g), ("age", a)])) := by
  unfold load_face
  rw [hm]
  simp [hleg, hlook, save_face, save_face_content, he, hg, ha]

/-- Witness for the amended C5 at the concrete legacy store. -/
theorem claim_C5_amended_witness :
    load_face "base" legacyFS "f" =
      LoadResult.ok (some faceX)
        (fsWrite legacyFS
          (replacePkl (joinPath (get_checkpoint_path "base") "f.pkl"))
          (FileData.st [("embedding", [1, 2]), ("gender", [1]), ("age", [30])])) :=
  claim_C5_amended "base" legacyFS "f"
    (joinPath (get_checkpoint_path "base") "f.pkl") faceX [1, 2] [1] [30]
    (by decide) (by decide) (by decide) (by decide) (by decide) (by decide)

/-! ### Claim C8: a caught failure can still leave a written checkpoint -/

/-- C8 exhibits a code bug: with a blended face obtained but no face
detected on the reference portrait, the workflow logs the failure yet
falls through, writes the checkpoint, and only then raises (the
preview variable was never bound), so the boundary handler returns the
empty result although the checkpoint file was created. -/
theorem claim_C8_bug :
    (build_face_checkpoint_and_save "base" []
      { blended := some faceX, targetFace := none } "alpha" false).1 = none ∧
    fsExists (build_face_checkpoint_and_save "base" []
      { blended := some faceX, targetFace := none } "alpha" false).2
      (joinPath (get_checkpoint_path "base") "alpha.safetensors") = true := by
  refine ⟨rfl, by decide⟩

/-! ### Claim C7: the checkpoint listing -/

theorem charListLe_total (a : List Char) :
    ∀ b, charListLe a b = true ∨ charListLe b a = true := by
  induction a with
  | nil => intro b; left; rfl
  | cons c t ih =>
    intro b
    cases b with
    | nil => right; rfl
    | cons c' t' =>
      rcases Nat.lt_trichotomy c.toNat c'.toNat with h | h | h
      · left; simp [charListLe, h]
      · rcases ih t' with h2 | h2
        · left
          simp [charListLe, h, Nat.lt_irrefl, h2]
        · right
          simp [charListLe, h, Nat.lt_irrefl, h2]
      · right; simp [charListLe, h]

theorem charListLe_trans (a : List Char) :
    ∀ b c, charListLe a b = true → charListLe b c = true →
      charListLe a c = true := by
  induction a with
  | nil => intro b c _ _; rfl
  | cons x t ih =>
    intro b c hab hbc
    cases b with
    | nil => simp [charListLe] at hab
    | cons y u =>
      cases c with
      | nil => simp [charListLe] at hbc
      | cons z v =>
        rcases Nat.lt_trichotomy x.toNat y.toNat with hxy | hxy | hxy
        · rcases Nat.lt_trichotomy y.toNat z.toNat with hyz | hyz | hyz
          · simp [charListLe, show x.toNat < z.toNat from hxy.trans hyz]
          · simp [charListLe, show x.toNat < z.toNat from hyz ▸ hxy]
          · rw [charListLe, if_neg (by omega), if_pos hyz] at hbc
            cases hbc
        · rw [charListLe, if_neg (by omega), if_neg (by omega)] at hab
          rcases Nat.lt_trichotomy y.toNat z.toNat with hyz | hyz | hyz
          · simp [charListLe, show x.toNat < z.toNat from by omega]
          · rw [charListLe, if_neg (by omega), if_neg (by omega)] at hbc
            rw [charListLe, if_neg (by omega), if_neg (by omega)]
            exact ih u v hab hbc
          · rw [charListLe, if_neg (by omega), if_pos hyz] at hbc
            cases hbc
        · rw [charListLe, if_neg (by omega), if_pos hxy] at hab
          cases hab

instance : IsTotal String strLeP :=
  ⟨fun a b => (charListLe_total a.data b.data).imp id id⟩

instance : IsTrans String strLeP :=
  ⟨fun a b c hab hbc => charListLe_trans a.data b.data c.data hab hbc⟩

theorem charListLe_append_cancel (pre : List Char) :
    ∀ a b, charListLe (pre ++ a) (pre ++ b) = charListLe a b := by
  induction pre with
  | nil => intro a b; rfl
  | cons c t ih =>
    intro a b
    simp [charListLe, Nat.lt_irrefl, ih]

theorem takeWhile_nosep (l : List Char) (rest : List Char)
    (h : ∀ c ∈ l, c ≠ '/') :
    (l ++ '/' :: rest).takeWhile (fun c => !(c == '/')) = l := by
  induction l with
  | nil => simp [List.takeWhile]
  | cons c t ih =>
    have hc : c ≠ '/' := h c (by simp)
    have : (c == '/') = false := by simp [hc]
    simp only [List.cons_append, List.takeWhile_cons, this, Bool.not_false,
      if_true]
    rw [ih (fun x hx => h x (by simp [hx]))]

theorem basenameChars_append (pre b : List Char) (hb : '/' ∉ b) :
    basenameChars (pre ++ '/' :: b) = b := by
  unfold basenameChars
  rw [show (pre ++ '/' :: b).reverse = b.reverse ++ '/' :: pre.reverse from by
    simp]
  rw [takeWhile_nosep _ _ (fun c hc hcs => hb (by
    subst hcs
    exact List.mem_reverse.mp hc))]
  simp

theorem globMatch_decomp {dir ext p : String} (h : globMatch dir ext p = true) :
    ∃ b, p.data = dir.data ++ '/' :: b ∧ '/' ∉ b := by
  unfold globMatch at h
  simp only [Bool.and_eq_true] at h
  rcases h with ⟨hpre, hrest⟩
  have hp : (dir ++ "/").data <+: p.data := List.isPrefixOf_iff_prefix.mp hpre
  rcases hp with ⟨t, ht⟩
  have hdata : p.data = dir.data ++ '/' :: t := by
    rw [← ht, String.data_append, show ("/").data = ['/'] from rfl,
      List.append_assoc, List.singleton_append]
  refine ⟨t, hdata, ?_⟩
  have hbase : p.data.drop (dir.data.length + 1) = t := by
    rw [← ht,
      show dir.data.length + 1 = ((dir ++ "/").data).length from by
        simp [String.data_append]]
    exact List.drop_left _ _
  rw [hbase] at hrest
  rcases hrest with ⟨⟨hnc, -⟩, -⟩
  intro hmem
  have : t.contains '/' = true := by
    rw [show t.contains '/' = t.elem '/' from rfl]
    exact List.elem_iff.mpr hmem
  rw [this] at hnc
  cases hnc

theorem basename_of_globMatch {dir ext p : String}
    (h : globMatch dir ext p = true) :
    ∃ b, p.data = dir.data ++ '/' :: b ∧ '/' ∉ b ∧ (basename p).data = b := by
  obtain ⟨b, hb, hbn⟩ := globMatch_decomp h
  refine ⟨b, hb, hbn, ?_⟩
  show (basenameChars p.data) = b
  rw [hb]
  exact basenameChars_append dir.data b hbn

theorem strLeP_basename {dir ext1 ext2 p q : String}
    (hp : globMatch dir ext1 p = true) (hq : globMatch dir ext2 q = true)
    (h : strLeP p q) : strLeP (basename p) (basename q) := by
  obtain ⟨bp, hpd, _, hpb⟩ := basename_of_globMatch hp
  obtain ⟨bq, hqd, _, hqb⟩ := basename_of_globMatch hq
  unfold strLeP strLe at *
  rw [hpb, hqb]
  rw [hpd, hqd,
    show dir.data ++ '/' :: bp = (dir.data ++ ['/']) ++ bp from by simp,
    show dir.data ++ '/' :: bq = (dir.data ++ ['/']) ++ bq from by simp,
    charListLe_append_cancel] at h
  exact h

theorem sorted_basenames (dir : String) (l : List String)
    (hmem : ∀ p ∈ l, globMatch dir currentExt p = true ∨
      globMatch dir legacyExt p = true) :
    List.Pairwise strLeP ((List.insertionSort strLeP l).map basename) := by
  have hs : List.Sorted strLeP (List.insertionSort strLeP l) :=
    List.sorted_insertionSort _ _
  rw [List.pairwise_map]
  refine hs.imp_of_mem ?_
  intro a b ha hb hr
  have ha' := (List.perm_insertionSort strLeP l).subset ha
  have hb' := (List.perm_insertionSort strLeP l).subset hb
  rcases hmem a ha' with h1 | h1 <;> rcases hmem b hb' with h2 | h2 <;>
    exact strLeP_basename h1 h2 hr

/-- The example directory of C7: `b.pkl`, `a.safetensors`,
`c.safetensors`. -/
def listFS : FS :=
  [(joinPath (get_checkpoint_path "base") "b.pkl", FileData.pkl []),
   (joinPath (get_checkpoint_path "base") "a.safetensors", FileData.st []),
   (joinPath (get_checkpoint_path "base") "c.safetensors", FileData.st [])]

/-- Counterexample to C7 as stated: the listing does not keep the two
extensions apart — the merged sort puts `b.pkl` before
`c.safetensors`, so the order the claim gives for the example
directory is not what the code returns. -/
theorem claim_C7_counterexample :
    get_face_checkpoints "base" listFS ≠
      ["None", "a.safetensors", "c.safetensors", "b.pkl"] := by decide

/-- C7 amended: the listing starts with the sentinel `"None"`, followed
by the basenames of all current- and legacy-extension files of the
managed directory, merged and sorted lexicographically by basename;
for the example directory `b.pkl`, `a.safetensors`, `c.safetensors`
the result is `["None", "a.safetensors", "b.pkl", "c.safetensors"]`. -/
theorem claim_C7_amended :
    (∀ bd fs, ∃ tail,
      get_face_checkpoints bd fs = "None" :: tail ∧
      List.Pairwise strLeP tail ∧
      tail.Perm
        ((((fs.map Prod.fst).filter
            (globMatch (get_checkpoint_path bd) currentExt)) ++
          ((fs.map Prod.fst).filter
            (globMatch (get_checkpoint_path bd) legacyExt))).map basename)) ∧
    get_face_checkpoints "base" listFS =
      ["None", "a.safetensors", "b.pkl", "c.safetensors"] := by
  constructor
  · intro bd fs
    refine ⟨_, rfl, ?_, ?_⟩
    · apply sorted_basenames
      intro p hp
      rcases List.mem_append.mp hp with h | h
      · exact Or.inl (List.of_mem_filter h)
      · exact Or.inr (List.of_mem_filter h)
    · exact (List.perm_insertionSort strLeP _).map basename
  · decide
